import Mathlib

/-!
Verification of the match-3 board engine in `src/main.rs` (`struct Game`).

The board is the Rust array `[[u8; BOARD_WIDTH]; BOARD_HEIGHT]` with
`BOARD_WIDTH = BOARD_HEIGHT = 8`; cell values are small naturals
(0 = empty, 1..5 = the five colours).  We store the board column-major:
`b : List (List Nat)` is the list of the 8 columns, and the Rust cell
`board[i][j]` (row `i`, column `j`) is `getC b i j` below.  The
column-major layout mirrors the fact that every structural mutation in
the source (`drop_tiles_with_animation`, `prepare_fall_animation`)
operates on one column at a time; cell reads and writes go through
`getC` / `setC` and are layout-independent.

The `u32` score is modelled as `Nat` (a settle pass adds at most 300,
so `u32` wrap-around is unreachable in any real session) and the `i32`
coordinate differences of the source as exact `Int` arithmetic.  The
process-wide random generator is modelled as an explicit stream
`s : Nat → Nat` of draws; `rng.gen_range(1..=5)` becomes `s k % 5 + 1`,
consumed in the same order as the source.  Presentation-only state
(`animation_timer : f32`, the `falling_tiles` vector) is omitted; the
single boolean `is_animating`, which gates click dispatch, is kept and
updated exactly as `prepare_fall_animation` computes it.
-/

namespace Sanxiao

/-- Rust `BOARD_WIDTH` (= `BOARD_HEIGHT` = 8). -/
def BOARD_SIZE : Nat := 8

/-- The 8×8 grid, stored as the list of its 8 columns (each a list of 8
cell values, top row first).  Cell values: 0 = empty, 1..5 = colours. -/
abbrev Board := List (List Nat)

/-- Rust `self.board[i][j]`: the cell in row `i`, column `j`. -/
def getC (b : Board) (i j : Nat) : Nat := (b.getD j []).getD i 0

/-- Rust `self.board[i][j] = v`. -/
def setC (b : Board) (i j : Nat) (v : Nat) : Board :=
  b.set j ((b.getD j []).set i v)

/-- The board really is an 8×8 grid (8 columns of 8 cells). -/
def Wellformed (b : Board) : Prop :=
  b.length = 8 ∧ ∀ j, j < 8 → (b.getD j []).length = 8

instance (b : Board) : Decidable (Wellformed b) := by
  unfold Wellformed; infer_instance

/-! ### Match detection (`Game::find_matches`, src/main.rs lines 82–144)

The source scans every row left to right (and every column top to
bottom) keeping a run counter `count` and the run's start index `start`;
when the run breaks (`board[i][j] != board[i][j-1]` or the value is 0)
and `count >= 3`, the cells `start..j` are marked.  `lineScanAux`
is that scan for one line, `g` being the line read off the board and
`rem` the number of loop iterations left (`rem = n - j`). -/

/-- Rust loop `for k in start..j` that sets marks to `true`: here `c`
entries of the marks row are set, beginning at index `start`. -/
def markRangeAux (m : List Bool) (start : Nat) : Nat → List Bool
  | 0 => m
  | c + 1 => markRangeAux (m.set start true) (start + 1) c

/-- Run-break marking step of the scan: if the finished run had length
`count ≥ 3`, mark the indices `start ≤ k < j`. -/
def markRun (m : List Bool) (start j count : Nat) : List Bool :=
  if 3 ≤ count then markRangeAux m start (j - start) else m

/-- One line of the `find_matches` scan.  `rem` counts the remaining
iterations of the Rust loop `for j in 1..n`; at the end the pending run
is marked exactly as in the source. -/
def lineScanAux (g : Nat → Nat) : Nat → Nat → Nat → Nat → List Bool → List Bool
  | 0, j, count, start, m => markRun m start j count
  | rem + 1, j, count, start, m =>
    if g j = g (j - 1) ∧ g j ≠ 0 then
      lineScanAux g rem (j + 1) (count + 1) start m
    else
      lineScanAux g rem (j + 1) 1 j (markRun m start j count)

/-- The marked indices of one line of length `n` (Rust initialises the
marks row to all-`false`, `count = 1`, `start = 0` and loops `j`
from 1). -/
def lineMarks (g : Nat → Nat) (n : Nat) : List Bool :=
  lineScanAux g (n - 1) 1 1 0 (List.replicate n false)

/-- All 64 positions in the row-major order Rust uses to collect the
marked cells. -/
def allCells : List (Nat × Nat) :=
  (List.range 8).flatMap fun i => (List.range 8).map fun j => (i, j)

/-- Rust `Game::find_matches` (lines 82–144): the horizontal pass marks
row `i` of the `marked` array, the vertical pass marks column `j`;
every marked cell is collected in row-major order. -/
def find_matches (b : Board) : List (Nat × Nat) :=
  let hm := (List.range 8).map fun i => lineMarks (fun k => getC b i k) 8
  let vm := (List.range 8).map fun j => lineMarks (fun k => getC b k j) 8
  allCells.filter fun p =>
    (hm.getD p.1 []).getD p.2 false || (vm.getD p.2 []).getD p.1 false

/-- Membership of index `k` in a horizontal/vertical window of ≥ 3
equal non-zero cells of the length-`n` line `g`: the reference notion a
marked cell must satisfy. -/
def InWindow (g : Nat → Nat) (n k : Nat) : Prop :=
  ∃ a c, a ≤ k ∧ k ≤ c ∧ c < n ∧ a + 2 ≤ c ∧ g a ≠ 0 ∧
    ∀ x, a ≤ x → x ≤ c → g x = g a

/-- Cell `(i, j)` lies in a horizontal run of ≥ 3 equal non-zero cells. -/
def HRun (b : Board) (i j : Nat) : Prop := InWindow (fun k => getC b i k) 8 j

/-- Cell `(i, j)` lies in a vertical run of ≥ 3 equal non-zero cells. -/
def VRun (b : Board) (i j : Nat) : Prop := InWindow (fun k => getC b k j) 8 i

/-! ### Gravity (`Game::drop_tiles_with_animation`, lines 221–237) -/

/-- One iteration of the write-pointer loop of
`drop_tiles_with_animation`, at read position `r` with write pointer
`w`: a non-zero cell is moved down to `w` (its source cleared) and the
write pointer steps up, never past 0. -/
def dropStep (c : List Nat) (r w : Nat) : List Nat × Nat :=
  if c.getD r 0 ≠ 0 then
    ((if r ≠ w then (c.set w (c.getD r 0)).set r 0 else c),
     if 0 < w then w - 1 else w)
  else (c, w)

/-- The per-column loop of `drop_tiles_with_animation`: read positions
`r, r-1, …, 0`, threading the write pointer. -/
def dropColAux : List Nat → Nat → Nat → List Nat
  | c, 0, w => (dropStep c 0 w).1
  | c, r + 1, w => dropColAux (dropStep c (r + 1) w).1 r (dropStep c (r + 1) w).2

/-- Gravity applied to one column (Rust starts with
`write_pos = BOARD_HEIGHT - 1` and reads from the bottom row 7). -/
def dropColumn (c : List Nat) : List Nat := dropColAux c 7 7

/-- Rust `Game::drop_tiles_with_animation` (lines 221–237): gravity on
every column independently. -/
def drop_tiles (b : Board) : Board := b.map dropColumn

/-! ### Fall animation preparation (`Game::prepare_fall_animation`,
lines 178–218).  Only its effect on `is_animating` matters to the core:
`is_animating` stays set iff some non-zero cell has a positive fall
distance (`write_pos > read_pos`). -/

/-- The fall-distance loop of `prepare_fall_animation` on one column,
returning whether any tile animation was created. -/
def fallColAux (c : List Nat) : Nat → Nat → Bool → Bool
  | 0, w, found => found || (decide (c.getD 0 0 ≠ 0) && decide (0 < w))
  | r + 1, w, found =>
    fallColAux c r
      (if c.getD (r + 1) 0 ≠ 0 then (if 0 < w then w - 1 else w) else w)
      (found || (decide (c.getD (r + 1) 0 ≠ 0) && decide (r + 1 < w)))

/-- Value of `is_animating` right after `prepare_fall_animation`:
`true` iff some falling tile was created. -/
def prepare_fall_animates (b : Board) : Bool :=
  b.any fun c => fallColAux c 7 7 false

/-! ### Game state and operations -/

/-- Rust `struct Game`, restricted to the core fields.  The purely
presentational `animation_timer : f32` and `falling_tiles` are omitted;
`is_animating` is kept because the UI refuses clicks while it is set. -/
structure GameState where
  board : Board
  score : Nat
  target_score : Nat
  selected : Option (Nat × Nat)
  pending_removal : List (Nat × Nat)
  game_over : Bool
  is_animating : Bool
deriving DecidableEq

/-- Rust `Game::swap` (lines 307–320): rejects unless the Manhattan
distance is exactly 1, otherwise exchanges the two cells. -/
def swap (b : Board) (row1 col1 row2 col2 : Nat) : Board × Bool :=
  if ((row1 : Int) - row2).natAbs + ((col1 : Int) - col2).natAbs ≠ 1 then
    (b, false)
  else
    (setC (setC b row1 col1 (getC b row2 col2)) row2 col2 (getC b row1 col1),
     true)

/-- The scratch board `Game::has_moves` builds by swapping `(i, j)`
with its right neighbour (reads are from the original board). -/
def swapRight (b : Board) (i j : Nat) : Board :=
  setC (setC b i j (getC b i (j + 1))) i (j + 1) (getC b i j)

/-- The scratch board `Game::has_moves` builds by swapping `(i, j)`
with its bottom neighbour. -/
def swapDown (b : Board) (i j : Nat) : Board :=
  setC (setC b i j (getC b (i + 1) j)) (i + 1) j (getC b i j)

/-- Rust `Game::has_moves` (lines 323–369): tries every cell's right
and bottom neighbour on a scratch copy, returning at the first swap
that produces a match. -/
def has_moves (b : Board) : Bool :=
  (List.range 8).any fun i => (List.range 8).any fun j =>
    (decide (j < 8 - 1) && !(find_matches (swapRight b i j)).isEmpty) ||
    (decide (i < 8 - 1) && !(find_matches (swapDown b i j)).isEmpty)

/-- Rust `Game::remove_matches` (lines 147–175): score the pass by the
total number of marked cells, remember them in `pending_removal`, clear
them to 0 and prepare the fall animation. -/
def remove_matches (g : GameState) : GameState × Bool :=
  let ms := find_matches g.board
  if ms.isEmpty then (g, false)
  else
    let score' :=
      if 5 ≤ ms.length then g.score + 300
      else if ms.length = 4 then g.score + 200
      else g.score + 100
    let board' := ms.foldl (fun bb p => setC bb p.1 p.2 0) g.board
    ({ g with
        score := score'
        pending_removal := ms
        board := board'
        is_animating := prepare_fall_animates board' }, true)

/-- Rust `Game::handle_click` (lines 372–400). -/
def handle_click (g : GameState) (row col : Nat) : GameState :=
  match g.selected with
  | some (sel_row, sel_col) =>
    if sel_row = row ∧ sel_col = col then
      { g with selected := none }
    else if (sel_row = row ∧ ((sel_col : Int) - col).natAbs = 1) ∨
            (sel_col = col ∧ ((sel_row : Int) - row).natAbs = 1) then
      let s := swap g.board sel_row sel_col row col
      let g2 :=
        if s.2 then
          if (find_matches s.1).isEmpty then
            { g with board := (swap s.1 sel_row sel_col row col).1 }
          else
            (remove_matches { g with board := s.1 }).1
        else g
      { g2 with selected := none }
    else
      { g with selected := some (row, col) }
  | none => { g with selected := some (row, col) }

/-- The click-dispatch path of the rendering loop (`eframe::App::update`,
lines 495–548): when `game_over` is set or the target score is reached
the frame returns before the board is drawn, and while `is_animating`
is set clicks on tiles are ignored, so `handle_click` is only invoked
otherwise. -/
def ui_click (g : GameState) (row col : Nat) : GameState :=
  if g.game_over || decide (g.target_score ≤ g.score) then g
  else if g.is_animating then g
  else handle_click g row col

/-! ### Random refill and the reshuffle block of `Game::update`
(lines 456–479).  The thread-local generator is an explicit stream
`s : Nat → Nat`; each `gen_range(1..=5)` draw is `s k % 5 + 1`,
consumed row-major as in `fill_board`. -/

/-- Rust `Game::fill_board` (lines 60–67) with the draws it makes from
the stream `s`: cell `(i, j)` receives draw number `i * 8 + j`. -/
def fill_board (s : Nat → Nat) : Board :=
  (List.range 8).map fun j => (List.range 8).map fun i => s (i * 8 + j) % 5 + 1

/-- The stream after one `fill_board` has consumed its 64 draws. -/
def shift64 (s : Nat → Nat) : Nat → Nat := fun n => s (n + 64)

/-- The board produced by the `t`-th `fill_board` call (0-based) when
the calls consume the stream `s` in order. -/
def fillAt (s : Nat → Nat) : Nat → Board
  | 0 => fill_board s
  | t + 1 => fillAt (shift64 s) t

/-- The reshuffle loop of `Game::update`: up to `k` more `fill_board`
attempts, stopping at the first refill that has a legal move. -/
def reshuffleAux (s : Nat → Nat) (b : Board) : Nat → Board × Bool
  | 0 => (b, false)
  | k + 1 =>
    if has_moves (fill_board s) then (fill_board s, true)
    else reshuffleAux (shift64 s) (fill_board s) k

/-- The no-available-move block of `Game::update` (lines 456–474): when
nothing is pending for display and no move exists, try `attempts = 5`
full refills; if none of them has a legal move, set `game_over`. -/
def update_reshuffle (s : Nat → Nat) (g : GameState) : GameState :=
  if g.pending_removal.isEmpty && !has_moves g.board then
    if !g.game_over then
      let r := reshuffleAux s g.board 5
      if r.2 then { g with board := r.1 }
      else { g with board := r.1, game_over := true }
    else g
  else g

/-- Loop invariant of the `find_matches` line scan before processing
index `j` of a line of length `n`: the current run is the cells
`start ≤ x < j`, it is left-maximal, and the marks row records exactly
the windows that end strictly before `start`. -/
def ScanInv (g : Nat → Nat) (n j count start : Nat) (m : List Bool) : Prop :=
  j = start + count ∧ 1 ≤ count ∧ m.length = n ∧
  (∀ x, start ≤ x → x < j → g x = g start) ∧
  (2 ≤ count → g start ≠ 0) ∧
  (start = 0 ∨ ¬(g start = g (start - 1) ∧ g start ≠ 0)) ∧
  (∀ k, m.getD k false = true ↔ InWindow g start k)

/-! ### Concrete boards and states used as test inputs -/

/-- Diagonal three-colour striping, cell `(i, j) = (i + j) % 3 + 1`:
a board on which no adjacent swap produces any match. -/
def stripeBoard : Board :=
  [[1,2,3,1,2,3,1,2],[2,3,1,2,3,1,2,3],[3,1,2,3,1,2,3,1],[1,2,3,1,2,3,1,2],
   [2,3,1,2,3,1,2,3],[3,1,2,3,1,2,3,1],[1,2,3,1,2,3,1,2],[2,3,1,2,3,1,2,3]]

/-- The board every cell of which is colour 1. -/
def onesBoard : Board :=
  [[1,1,1,1,1,1,1,1],[1,1,1,1,1,1,1,1],[1,1,1,1,1,1,1,1],[1,1,1,1,1,1,1,1],
   [1,1,1,1,1,1,1,1],[1,1,1,1,1,1,1,1],[1,1,1,1,1,1,1,1],[1,1,1,1,1,1,1,1]]

/-- A board whose only run is the horizontal triple at
`(0,0), (0,1), (0,2)`. -/
def tripleBoard : Board :=
  [[1,2,1,2,1,2,1,2],[1,1,2,1,2,1,2,1],[1,2,1,2,1,2,1,2],[2,1,2,1,2,1,2,1],
   [1,2,1,2,1,2,1,2],[2,1,2,1,2,1,2,1],[1,2,1,2,1,2,1,2],[2,1,2,1,2,1,2,1]]

/-- A board with empty cells in column 0 (for the gravity witness). -/
def dBoard : Board :=
  [[0,3,0,2,5,0,1,4],[1,2,3,4,5,1,2,3],[2,3,4,5,1,2,3,4],[3,4,5,1,2,3,4,5],
   [4,5,1,2,3,4,5,1],[5,1,2,3,4,5,1,2],[1,2,3,4,5,1,2,3],[2,3,4,5,1,2,3,4]]

/-- A board on which swapping `(0,0)` and `(0,1)` creates the vertical
triple `1,1,1` in column 0. -/
def B7 : Board :=
  [[2,1,1,4,5,4,5,4],[1,4,5,2,3,2,3,2],[3,5,3,5,3,5,3,5],[5,3,5,3,5,3,5,3],
   [3,5,3,5,3,5,3,5],[5,3,5,3,5,3,5,3],[3,5,3,5,3,5,3,5],[5,3,5,3,5,3,5,3]]

/-- State with the triple board and no selection. -/
def G3 : GameState :=
  { board := tripleBoard, score := 40, target_score := 2000, selected := none,
    pending_removal := [], game_over := false, is_animating := false }

/-- State with the no-move board and `(0, 0)` selected. -/
def G5 : GameState :=
  { board := stripeBoard, score := 7, target_score := 2000,
    selected := some (0, 0), pending_removal := [], game_over := false,
    is_animating := false }

/-- Game-over state with `(0, 0)` selected on the board `B7`. -/
def G7 : GameState :=
  { board := B7, score := 0, target_score := 2000, selected := some (0, 0),
    pending_removal := [], game_over := true, is_animating := false }

/-- Game-over state on the no-move board. -/
def G7A : GameState :=
  { board := stripeBoard, score := 0, target_score := 2000,
    selected := some (0, 0), pending_removal := [], game_over := true,
    is_animating := false }

/-- Live state on the no-move board (reshuffle fires from here). -/
def G8 : GameState :=
  { board := stripeBoard, score := 0, target_score := 2000, selected := none,
    pending_removal := [], game_over := false, is_animating := false }

/-- Live state with no selection. -/
def G9 : GameState :=
  { board := stripeBoard, score := 0, target_score := 2000, selected := none,
    pending_removal := [], game_over := false, is_animating := false }

/-- The constant-zero random stream: every `gen_range(1..=5)` draw
becomes colour 1, so every refill is `onesBoard`. -/
def s0 : Nat → Nat := fun _ => 0

/-! ### List toolkit -/

lemma getD_set_self {α : Type} (l : List α) (i : Nat) (v d : α) (h : i < l.length) :
    (l.set i v).getD i d = v := by
  rw [List.getD_eq_getElem?_getD, List.getElem?_set]
  simp [h]

lemma getD_set_ne {α : Type} (l : List α) (i j : Nat) (v d : α) (h : i ≠ j) :
    (l.set i v).getD j d = l.getD j d := by
  rw [List.getD_eq_getElem?_getD, List.getElem?_set, if_neg h,
    ← List.getD_eq_getElem?_getD]

lemma getD_replicate (n k : Nat) (x : Bool) : (List.replicate n x).getD k x = x := by
  rw [List.getD_eq_getElem?_getD, List.getElem?_replicate]
  split <;> rfl

lemma getD_map_range {α : Type} (f : Nat → α) (n i : Nat) (d : α) (h : i < n) :
    ((List.range n).map f).getD i d = f i := by
  rw [List.getD_eq_getElem _ _ (by simpa using h)]
  simp

/-! ### Correctness of the `find_matches` scan -/

lemma markRangeAux_length (m : List Bool) (s c : Nat) :
    (markRangeAux m s c).length = m.length := by
  induction c generalizing m s with
  | zero => rfl
  | succ c ih => rw [markRangeAux, ih, List.length_set]

lemma markRangeAux_getD (m : List Bool) (s c k : Nat) (h : s + c ≤ m.length) :
    ((markRangeAux m s c).getD k false = true ↔
      (m.getD k false = true ∨ (s ≤ k ∧ k < s + c))) := by
  induction c generalizing m s with
  | zero =>
    rw [markRangeAux]
    constructor
    · intro hh; exact Or.inl hh
    · rintro (hh | hh)
      · exact hh
      · omega
  | succ c ih =>
    rw [markRangeAux, ih (m.set s true) (s + 1) (by rw [List.length_set]; omega)]
    by_cases hk : k = s
    · subst hk
      rw [getD_set_self _ _ _ _ (by omega)]
      constructor
      · intro _; right; omega
      · intro _; left; rfl
    · rw [getD_set_ne _ _ _ _ _ fun hh => hk hh.symm]
      constructor
      · rintro (hh | hh)
        · exact Or.inl hh
        · right; omega
      · rintro (hh | hh)
        · exact Or.inl hh
        · right; omega

lemma markRun_length (m : List Bool) (s j c : Nat) :
    (markRun m s j c).length = m.length := by
  unfold markRun
  split
  · rw [markRangeAux_length]
  · rfl

/-- Window membership is monotone in the line-length bound. -/
lemma InWindow.mono {g : Nat → Nat} {n n' k : Nat} (h : InWindow g n k)
    (hn : n ≤ n') : InWindow g n' k := by
  obtain ⟨a, c, h1, h2, h3, h4, h5, h6⟩ := h
  exact ⟨a, c, h1, h2, Nat.lt_of_lt_of_le h3 hn, h4, h5, h6⟩

lemma markRun_spec (g : Nat → Nat) (n j count start : Nat) (m : List Bool)
    (inv : ScanInv g n j count start m) (hjn : j ≤ n) :
    ∀ k, ((markRun m start j count).getD k false = true ↔ InWindow g j k) := by
  obtain ⟨hj, hc1, hlen, heq, hnz, hmax, hm⟩ := inv
  intro k
  unfold markRun
  by_cases h3 : 3 ≤ count
  · rw [if_pos h3, markRangeAux_getD _ _ _ _ (by omega),
      (by omega : start + (j - start) = j)]
    constructor
    · rintro (hmk | ⟨hsk, hkj⟩)
      · exact ((hm k).1 hmk).mono (by omega)
      · refine ⟨start, j - 1, hsk, by omega, by omega, by omega, hnz (by omega), ?_⟩
        intro x hx1 hx2
        exact heq x hx1 (by omega)
    · rintro ⟨a, c, hak, hkc, hcj, hl2, hnz2, heq2⟩
      by_cases hcs : c < start
      · exact Or.inl ((hm k).2 ⟨a, c, hak, hkc, hcs, hl2, hnz2, heq2⟩)
      · have hsa : start ≤ a := by
          by_contra hias
          push_neg at hias
          have h1 : g start = g a := heq2 start (by omega) (by omega)
          have h2 : g (start - 1) = g a := heq2 (start - 1) (by omega) (by omega)
          rcases hmax with h0 | hmx
          · omega
          · exact hmx ⟨by rw [h1, h2], by rw [h1]; exact hnz2⟩
        right; omega
  · rw [if_neg h3, hm k]
    constructor
    · intro h; exact h.mono (by omega)
    · rintro ⟨a, c, hak, hkc, hcj, hl2, hnz2, heq2⟩
      by_cases hcs : c < start
      · exact ⟨a, c, hak, hkc, hcs, hl2, hnz2, heq2⟩
      · exfalso
        have hsa : start ≤ a := by
          by_contra hias
          push_neg at hias
          have h1 : g start = g a := heq2 start (by omega) (by omega)
          have h2 : g (start - 1) = g a := heq2 (start - 1) (by omega) (by omega)
          rcases hmax with h0 | hmx
          · omega
          · exact hmx ⟨by rw [h1, h2], by rw [h1]; exact hnz2⟩
        omega

lemma lineScanAux_spec (g : Nat → Nat) :
    ∀ rem j count start m, ScanInv g (j + rem) j count start m →
      ∀ k, ((lineScanAux g rem j count start m).getD k false = true ↔
        InWindow g (j + rem) k) := by
  intro rem
  induction rem with
  | zero =>
    intro j count start m inv k
    rw [lineScanAux, markRun_spec g (j + 0) j count start m inv (by omega) k,
      Nat.add_zero]
  | succ rem ih =>
    intro j count start m inv k
    obtain ⟨hj, hc1, hlen, heq, hnz, hmax, hm⟩ := inv
    rw [lineScanAux]
    by_cases hcond : g j = g (j - 1) ∧ g j ≠ 0
    · rw [if_pos hcond]
      have hgj : g j = g start := by
        rw [hcond.1]
        exact heq (j - 1) (by omega) (by omega)
      have inv' : ScanInv g ((j + 1) + rem) (j + 1) (count + 1) start m := by
        refine ⟨by omega, by omega, by omega, ?_, ?_, hmax, hm⟩
        · intro x hx1 hx2
          by_cases hxj : x = j
          · rw [hxj]; exact hgj
          · exact heq x hx1 (by omega)
        · intro h2
          rw [← hgj]; exact hcond.2
      rw [ih (j + 1) (count + 1) start m inv' k,
        (by omega : (j + 1) + rem = j + (rem + 1))]
    · rw [if_neg hcond]
      have inv' : ScanInv g ((j + 1) + rem) (j + 1) 1 j
          (markRun m start j count) := by
        refine ⟨by omega, le_refl 1, ?_, ?_, ?_, Or.inr hcond, ?_⟩
        · rw [markRun_length]; omega
        · intro x hx1 hx2
          have hxj : x = j := by omega
          rw [hxj]
        · intro h2; exact absurd h2 (by omega)
        · exact markRun_spec g (j + (rem + 1)) j count start m
            ⟨hj, hc1, hlen, heq, hnz, hmax, hm⟩ (by omega)
      rw [ih (j + 1) 1 j (markRun m start j count) inv' k,
        (by omega : (j + 1) + rem = j + (rem + 1))]

lemma lineMarks_spec (g : Nat → Nat) (n : Nat) (hn : 1 ≤ n) (k : Nat) :
    ((lineMarks g n).getD k false = true ↔ InWindow g n k) := by
  unfold lineMarks
  have inv : ScanInv g (1 + (n - 1)) 1 1 0 (List.replicate n false) := by
    refine ⟨rfl, le_refl 1, by rw [List.length_replicate]; omega, ?_, ?_,
      Or.inl rfl, ?_⟩
    · intro x hx1 hx2
      have hx0 : x = 0 := by omega
      rw [hx0]
    · intro h2; exact absurd h2 (by omega)
    · intro k2
      rw [getD_replicate]
      constructor
      · intro h; exact absurd h (by simp)
      · rintro ⟨a, c, _, h2, h3, _, _, _⟩; omega
  have hsp := lineScanAux_spec g (n - 1) 1 1 0 (List.replicate n false) inv k
  rw [(by omega : 1 + (n - 1) = n)] at hsp
  exact hsp

lemma mem_allCells (p : Nat × Nat) : p ∈ allCells ↔ p.1 < 8 ∧ p.2 < 8 := by
  obtain ⟨i, j⟩ := p
  simp [allCells, List.mem_flatMap, List.mem_map, List.mem_range, eq_comm]

lemma find_matches_mem (b : Board) (i j : Nat) :
    (i, j) ∈ find_matches b ↔ i < 8 ∧ j < 8 ∧ (HRun b i j ∨ VRun b i j) := by
  simp only [find_matches]
  rw [List.mem_filter, mem_allCells]
  constructor
  · rintro ⟨⟨hi, hj⟩, hpred⟩
    refine ⟨hi, hj, ?_⟩
    simp only at hpred
    rw [getD_map_range _ _ _ _ hi, getD_map_range _ _ _ _ hj,
      Bool.or_eq_true] at hpred
    rcases hpred with h | h
    · exact Or.inl ((lineMarks_spec _ 8 (by omega) j).1 h)
    · exact Or.inr ((lineMarks_spec _ 8 (by omega) i).1 h)
  · rintro ⟨hi, hj, hrun⟩
    refine ⟨⟨hi, hj⟩, ?_⟩
    simp only
    rw [getD_map_range _ _ _ _ hi, getD_map_range _ _ _ _ hj, Bool.or_eq_true]
    rcases hrun with h | h
    · exact Or.inl ((lineMarks_spec _ 8 (by omega) j).2 h)
    · exact Or.inr ((lineMarks_spec _ 8 (by omega) i).2 h)

/-! ### Correctness of the gravity loop -/

lemma take_set_of_le {α : Type} (l : List α) (m n : Nat) (x : α) (h : n ≤ m) :
    (l.set m x).take n = l.take n := by
  apply List.ext_getElem
  · simp
  · intro i h1 h2
    rw [List.getElem_take, List.getElem_take, List.getElem_set_ne (by
      rw [List.length_take] at h1; omega)]

lemma drop_set_of_lt {α : Type} (l : List α) (m n : Nat) (x : α) (h : m < n) :
    (l.set m x).drop n = l.drop n := by
  apply List.ext_getElem
  · simp
  · intro i h1 h2
    rw [List.getElem_drop, List.getElem_drop, List.getElem_set_ne (by omega)]

lemma getElem_idx {α : Type} (l : List α) (n m : Nat) (hn : n < l.length)
    (hm : m < l.length) (hnm : n = m) : l[n] = l[m] := by
  subst hnm; rfl

lemma dropStep_of_zero (c : List Nat) (r w : Nat) (h : c.getD r 0 = 0) :
    dropStep c r w = (c, w) := by
  unfold dropStep
  rw [if_neg fun hh => hh h]

lemma dropStep_of_ne_stay (c : List Nat) (r w : Nat) (h : c.getD r 0 ≠ 0)
    (hr : r = w) : dropStep c r w = (c, if 0 < w then w - 1 else w) := by
  unfold dropStep
  rw [if_pos h, if_neg (by omega)]

lemma dropStep_of_ne_move (c : List Nat) (r w : Nat) (h : c.getD r 0 ≠ 0)
    (hr : r ≠ w) :
    dropStep c r w = ((c.set w (c.getD r 0)).set r 0,
      if 0 < w then w - 1 else w) := by
  unfold dropStep
  rw [if_pos h, if_pos hr]

/-- All cells of a prefix of zeroes. -/
lemma take_eq_replicate_zero (c : List Nat) (n : Nat) (hn : n ≤ c.length)
    (hz : ∀ p, p < n → c.getD p 0 = 0) :
    c.take n = List.replicate n (0 : Nat) := by
  rw [List.eq_replicate_iff]
  refine ⟨by rw [List.length_take]; exact Nat.min_eq_left hn, ?_⟩
  intro b hb
  rw [List.mem_iff_getElem] at hb
  obtain ⟨i, hi, hbi⟩ := hb
  have hin : i < n := by
    rw [List.length_take] at hi
    exact lt_of_lt_of_le hi (Nat.min_le_left _ _)
  rw [List.getElem_take] at hbi
  rw [← hbi, ← List.getD_eq_getElem c 0 (by omega)]
  exact hz i hin

lemma dropColAux_eq :
    ∀ (r : Nat) (c : List Nat) (w : Nat), c.length = 8 → r ≤ w → w < 8 →
      (∀ p, r < p → p ≤ w → c.getD p 0 = 0) →
      dropColAux c r w =
        List.replicate (w + 1 - ((c.take (r + 1)).filter (fun v => v != 0)).length) 0
          ++ (c.take (r + 1)).filter (fun v => v != 0) ++ c.drop (w + 1) := by
  intro r
  induction r with
  | zero =>
    intro c w hlen hrw hw hzone
    have h0 : 0 < c.length := by omega
    have ht1 : c.take 1 = [c.getD 0 0] := by
      rw [List.getD_eq_getElem _ _ h0, List.take_succ, List.take_zero,
        List.getElem?_eq_getElem h0]
      rfl
    by_cases hx : c.getD 0 0 = 0
    · rw [dropColAux, dropStep_of_zero _ _ _ hx]
      dsimp only
      rw [ht1]
      have hf : [c.getD 0 0].filter (fun v => v != 0) = [] := by
        rw [List.filter_cons, if_neg (by rw [hx]; simp)]
        rfl
      rw [hf]
      have hrep : c.take (w + 1) = List.replicate (w + 1) (0 : Nat) := by
        refine take_eq_replicate_zero c (w + 1) (by omega) ?_
        intro p hp
        rcases Nat.eq_zero_or_pos p with hp0 | hp0
        · rw [hp0]; exact hx
        · exact hzone p (by omega) (by omega)
      calc c = c.take (w + 1) ++ c.drop (w + 1) := (List.take_append_drop _ _).symm
        _ = List.replicate (w + 1) (0 : Nat) ++ c.drop (w + 1) := by rw [hrep]
        _ = List.replicate (w + 1 - List.length ([] : List Nat)) 0 ++ []
              ++ c.drop (w + 1) := by simp
    · by_cases hw0 : w = 0
      · rw [dropColAux, dropStep_of_ne_stay _ _ _ hx (by omega)]
        dsimp only
        rw [ht1]
        have hf : [c.getD 0 0].filter (fun v => v != 0) = [c.getD 0 0] := by
          rw [List.filter_cons, if_pos (bne_iff_ne.mpr hx)]
          rfl
        rw [hf, hw0]
        have hdc : c.drop 0 = c.getD 0 0 :: c.drop 1 := by
          rw [List.getD_eq_getElem _ _ h0, ← List.drop_eq_getElem_cons h0]
        calc c = c.drop 0 := rfl
          _ = c.getD 0 0 :: c.drop 1 := hdc
          _ = List.replicate (0 + 1 - [c.getD 0 0].length) 0 ++ [c.getD 0 0]
                ++ c.drop (0 + 1) := by simp
      · rw [dropColAux, dropStep_of_ne_move _ _ _ hx (by omega)]
        dsimp only
        rw [ht1]
        have hf : [c.getD 0 0].filter (fun v => v != 0) = [c.getD 0 0] := by
          rw [List.filter_cons, if_pos (bne_iff_ne.mpr hx)]
          rfl
        rw [hf]
        have hlen2 : ((c.set w (c.getD 0 0)).set 0 0).length = c.length := by
          simp
        have hrep : ((c.set w (c.getD 0 0)).set 0 0).take w
            = List.replicate w (0 : Nat) := by
          refine take_eq_replicate_zero _ w (by omega) ?_
          intro p hp
          rcases Nat.eq_zero_or_pos p with hp0 | hp0
          · rw [hp0]
            exact getD_set_self _ _ _ _ (by simp; omega)
          · rw [getD_set_ne _ _ _ _ _ (by omega), getD_set_ne _ _ _ _ _ (by omega)]
            exact hzone p (by omega) (by omega)
        have hdr : ((c.set w (c.getD 0 0)).set 0 0).drop w
            = c.getD 0 0 :: c.drop (w + 1) := by
          rw [List.drop_eq_getElem_cons (by rw [hlen2]; omega)]
          congr 1
          · rw [List.getElem_set_ne (by omega), List.getElem_set_self]
          · rw [drop_set_of_lt _ _ _ _ (by omega), drop_set_of_lt _ _ _ _ (by omega)]
        calc (c.set w (c.getD 0 0)).set 0 0
            = ((c.set w (c.getD 0 0)).set 0 0).take w
              ++ ((c.set w (c.getD 0 0)).set 0 0).drop w :=
              (List.take_append_drop _ _).symm
          _ = List.replicate w (0 : Nat) ++ (c.getD 0 0 :: c.drop (w + 1)) := by
              rw [hrep, hdr]
          _ = List.replicate (w + 1 - [c.getD 0 0].length) 0 ++ [c.getD 0 0]
                ++ c.drop (w + 1) := by
              simp [List.append_assoc]
  | succ r ih =>
    intro c w hlen hrw hw hzone
    have hr1 : r + 1 < c.length := by omega
    have htake : c.take (r + 1 + 1) = c.take (r + 1) ++ [c.getD (r + 1) 0] := by
      rw [List.getD_eq_getElem _ _ hr1, List.take_succ,
        List.getElem?_eq_getElem hr1]
      rfl
    have hFle : ((c.take (r + 1)).filter (fun v => v != 0)).length ≤ r + 1 :=
      le_trans (List.length_filter_le _ _) (List.length_take_le _ _)
    by_cases hv : c.getD (r + 1) 0 = 0
    · rw [dropColAux, dropStep_of_zero _ _ _ hv]
      dsimp only
      rw [ih c w hlen (by omega) hw (by
        intro p h1 h2
        by_cases hp : p = r + 1
        · rw [hp]; exact hv
        · exact hzone p (by omega) h2)]
      rw [htake, List.filter_append]
      have hf : [c.getD (r + 1) 0].filter (fun v => v != 0) = [] := by
        rw [List.filter_cons, if_neg (by rw [hv]; simp)]
        rfl
      rw [hf]
      simp
    · by_cases hrw1 : r + 1 = w
      · rw [dropColAux, dropStep_of_ne_stay _ _ _ hv hrw1]
        dsimp only
        have hw' : (if 0 < w then w - 1 else w) = r := by
          rw [if_pos (by omega)]; omega
        rw [hw']
        rw [ih c r hlen (le_refl r) (by omega) (fun p h1 h2 => absurd h2 (by omega))]
        rw [htake, List.filter_append]
        have hf : [c.getD (r + 1) 0].filter (fun v => v != 0)
            = [c.getD (r + 1) 0] := by
          rw [List.filter_cons, if_pos (bne_iff_ne.mpr hv)]
          rfl
        rw [hf, ← hrw1]
        rw [List.drop_eq_getElem_cons hr1, ← List.getD_eq_getElem c 0 hr1]
        rw [(by
          simp only [List.length_append, List.length_cons, List.length_nil]
          omega :
          r + 1 + 1 - ((c.take (r + 1)).filter (fun v => v != 0)
            ++ [c.getD (r + 1) 0]).length
          = r + 1 - ((c.take (r + 1)).filter (fun v => v != 0)).length)]
        simp [List.append_assoc]
      · have hlt : r + 1 < w := by omega
        rw [dropColAux, dropStep_of_ne_move _ _ _ hv hrw1]
        dsimp only
        have hw' : (if 0 < w then w - 1 else w) = w - 1 := by
          rw [if_pos (by omega)]
        rw [hw']
        have hlen2 : ((c.set w (c.getD (r + 1) 0)).set (r + 1) 0).length
            = c.length := by simp
        rw [ih _ (w - 1) (by rw [hlen2]; exact hlen) (by omega) (by omega) (by
          intro p h1 h2
          by_cases hp : p = r + 1
          · rw [hp]
            exact getD_set_self _ _ _ _ (by simp; omega)
          · rw [getD_set_ne _ _ _ _ _ (by omega), getD_set_ne _ _ _ _ _ (by omega)]
            exact hzone p (by omega) (by omega))]
        have ht : ((c.set w (c.getD (r + 1) 0)).set (r + 1) 0).take (r + 1)
            = c.take (r + 1) := by
          rw [take_set_of_le _ _ _ _ (le_refl (r + 1)), take_set_of_le _ _ _ _ (by omega)]
        have hd : ((c.set w (c.getD (r + 1) 0)).set (r + 1) 0).drop (w - 1 + 1)
            = c.getD (r + 1) 0 :: c.drop (w + 1) := by
          rw [(by omega : w - 1 + 1 = w),
            List.drop_eq_getElem_cons (by rw [hlen2]; omega)]
          congr 1
          · rw [List.getElem_set_ne (by omega), List.getElem_set_self]
          · rw [drop_set_of_lt _ _ _ _ (by omega), drop_set_of_lt _ _ _ _ (by omega)]
        rw [ht, hd, htake, List.filter_append]
        have hf : [c.getD (r + 1) 0].filter (fun v => v != 0)
            = [c.getD (r + 1) 0] := by
          rw [List.filter_cons, if_pos (bne_iff_ne.mpr hv)]
          rfl
        rw [hf]
        rw [(by
          simp only [List.length_append, List.length_cons, List.length_nil]
          omega :
          w + 1 - ((c.take (r + 1)).filter (fun v => v != 0)
            ++ [c.getD (r + 1) 0]).length
          = w - 1 + 1 - ((c.take (r + 1)).filter (fun v => v != 0)).length)]
        simp [List.append_assoc]

/-- Gravity on one full column of height 8. -/
lemma dropColumn_eq (c : List Nat) (hlen : c.length = 8) :
    dropColumn c =
      List.replicate (8 - (c.filter (fun v => v != 0)).length) 0
        ++ c.filter (fun v => v != 0) := by
  unfold dropColumn
  rw [dropColAux_eq 7 c 7 hlen (le_refl 7) (by omega)
    (fun p h1 h2 => absurd h2 (by omega))]
  rw [(by rw [(by omega : 7 + 1 = c.length)]; exact List.take_length c :
      c.take (7 + 1) = c),
    (by rw [(by omega : 7 + 1 = c.length)]; exact List.drop_length c :
      c.drop (7 + 1) = [])]
  simp

/-! ### Claim C1: exactness of `find_matches` -/

/-- C1: `find_matches` returns exactly the set of cells lying in some
horizontal or vertical contiguous run of length ≥ 3 of equal non-zero
values; every cell of every such run is included, each cell appears at
most once (the returned list has no duplicates), and no cell whose
value is 0 is ever included. -/
theorem C1_find_matches_spec (b : Board) :
    (∀ i j, ((i, j) ∈ find_matches b ↔ i < 8 ∧ j < 8 ∧ (HRun b i j ∨ VRun b i j)))
    ∧ (find_matches b).Nodup
    ∧ ∀ p ∈ find_matches b, getC b p.1 p.2 ≠ 0 := by
  refine ⟨fun i j => find_matches_mem b i j, ?_, ?_⟩
  · simp only [find_matches]
    exact List.Nodup.filter _ (by decide)
  · rintro ⟨i, j⟩ hp
    rcases (find_matches_mem b i j).1 hp with ⟨hi, hj, hr | hr⟩
    · simp only [HRun, InWindow] at hr
      obtain ⟨a, c, hak, hkc, _, _, hnz, heq⟩ := hr
      intro h0
      exact hnz ((heq j hak hkc).symm.trans h0)
    · simp only [VRun, InWindow] at hr
      obtain ⟨a, c, hak, hkc, _, _, hnz, heq⟩ := hr
      intro h0
      exact hnz ((heq i hak hkc).symm.trans h0)

/-! ### Claim C2: gravity -/

/-- C2: `drop_tiles_with_animation` applies gravity independently to
each column: afterwards every column equals a block of zeroes on top of
the non-zero cells of the old column in their original top-to-bottom
order (hence the non-zero cells sit at the bottom, in order, with an
unchanged multiset, and all zeroes are at the top). -/
theorem C2_drop_tiles_gravity (b : Board) (hb : Wellformed b) :
    ∀ j, j < 8 →
      (drop_tiles b).getD j [] =
        List.replicate (8 - ((b.getD j []).filter (fun v => v != 0)).length) 0
          ++ (b.getD j []).filter (fun v => v != 0) := by
  intro j hj
  obtain ⟨hblen, hcols⟩ := hb
  have hj' : j < b.length := by omega
  unfold drop_tiles
  rw [List.getD_eq_getElem _ _ (by rw [List.length_map]; exact hj'),
    List.getElem_map, List.getD_eq_getElem _ _ hj']
  exact dropColumn_eq _ (by rw [← List.getD_eq_getElem _ _ hj']; exact hcols j hj)

/-! ### Cell read/write toolkit -/

lemma getC_setC_ne (b : Board) (i j i' j' v : Nat)
    (h : (i', j') ≠ (i, j)) : getC (setC b i j v) i' j' = getC b i' j' := by
  unfold getC setC
  by_cases hj : j' = j
  · subst hj
    have hi : i' ≠ i := fun hh => h (by rw [hh])
    by_cases hjl : j' < b.length
    · rw [getD_set_self _ _ _ _ hjl, getD_set_ne _ _ _ _ _ fun hh => hi hh.symm]
    · rw [List.getD_eq_getElem?_getD (b.set j' _),
        List.getElem?_eq_none (by rw [List.length_set]; omega),
        List.getD_eq_getElem?_getD b, List.getElem?_eq_none (by omega)]
  · rw [getD_set_ne _ _ _ _ _ fun hh => hj hh.symm]

lemma getC_setC_self (b : Board) (i j v : Nat) (hb : Wellformed b)
    (hi : i < 8) (hj : j < 8) : getC (setC b i j v) i j = v := by
  obtain ⟨hl, hc⟩ := hb
  unfold getC setC
  rw [getD_set_self _ _ _ _ (by omega), getD_set_self _ _ _ _ (by rw [hc j hj]; omega)]

lemma setC_wellformed (b : Board) (i j v : Nat) (hb : Wellformed b) :
    Wellformed (setC b i j v) := by
  obtain ⟨hl, hc⟩ := hb
  constructor
  · unfold setC
    rw [List.length_set]
    exact hl
  · intro j' hj'
    unfold setC
    by_cases hjj : j' = j
    · subst hjj
      rw [getD_set_self _ _ _ _ (by omega), List.length_set]
      exact hc j' hj'
    · rw [getD_set_ne _ _ _ _ _ fun hh => hjj hh.symm]
      exact hc j' hj'

/-- Two wellformed boards with equal cells are equal (bit-for-bit). -/
lemma board_ext (b b' : Board) (hb : Wellformed b) (hb' : Wellformed b')
    (h : ∀ i j, i < 8 → j < 8 → getC b i j = getC b' i j) : b = b' := by
  obtain ⟨hl, hc⟩ := hb
  obtain ⟨hl', hc'⟩ := hb'
  apply List.ext_getElem (by omega)
  intro j hj1 hj2
  apply List.ext_getElem
  · have e1 := hc j (by omega)
    have e2 := hc' j (by omega)
    rw [List.getD_eq_getElem _ _ hj1] at e1
    rw [List.getD_eq_getElem _ _ hj2] at e2
    omega
  · intro i hi1 hi2
    have e1 := hc j (by omega)
    rw [List.getD_eq_getElem _ _ hj1] at e1
    have hcell := h i j (by omega) (by omega)
    unfold getC at hcell
    rw [List.getD_eq_getElem _ _ hj1, List.getD_eq_getElem _ _ hj2,
      List.getD_eq_getElem _ _ hi1, List.getD_eq_getElem _ _ hi2] at hcell
    exact hcell

/-! ### Claim C4: the adjacency check of `swap` -/

/-- C4: for in-bounds cells, `swap` returns `true` and exchanges
exactly the two cells' values iff their Manhattan distance is exactly
1; for any other pair (same cell, diagonal, distant) it returns `false`
and leaves the board unchanged. -/
theorem C4_swap_spec (b : Board) (hb : Wellformed b) (r1 c1 r2 c2 : Nat)
    (h1 : r1 < 8) (h2 : c1 < 8) (h3 : r2 < 8) (h4 : c2 < 8) :
    ((swap b r1 c1 r2 c2).2 = true ↔
      ((r1 : Int) - r2).natAbs + ((c1 : Int) - c2).natAbs = 1)
    ∧ (((r1 : Int) - r2).natAbs + ((c1 : Int) - c2).natAbs = 1 →
        getC (swap b r1 c1 r2 c2).1 r1 c1 = getC b r2 c2
        ∧ getC (swap b r1 c1 r2 c2).1 r2 c2 = getC b r1 c1
        ∧ ∀ i j, (i, j) ≠ (r1, c1) → (i, j) ≠ (r2, c2) →
            getC (swap b r1 c1 r2 c2).1 i j = getC b i j)
    ∧ (((r1 : Int) - r2).natAbs + ((c1 : Int) - c2).natAbs ≠ 1 →
        (swap b r1 c1 r2 c2).1 = b) := by
  by_cases hd : ((r1 : Int) - r2).natAbs + ((c1 : Int) - c2).natAbs = 1
  · have hne : (r1, c1) ≠ (r2, c2) := by
      intro hh
      injection hh with ha hb2
      subst ha
      subst hb2
      simp at hd
    unfold swap
    rw [if_neg fun hh => hh hd]
    dsimp only
    refine ⟨⟨fun _ => hd, fun _ => rfl⟩, fun _ => ⟨?_, ?_, ?_⟩, fun hcon => absurd hd hcon⟩
    · rw [getC_setC_ne _ _ _ _ _ _ hne,
        getC_setC_self _ _ _ _ hb h1 h2]
    · rw [getC_setC_self _ _ _ _ (setC_wellformed _ _ _ _ hb) h3 h4]
    · intro i j hne1 hne2
      rw [getC_setC_ne _ _ _ _ _ _ hne2, getC_setC_ne _ _ _ _ _ _ hne1]
  · unfold swap
    rw [if_pos hd]
    exact ⟨⟨fun hh => absurd hh (by simp), fun hh => absurd hh hd⟩,
      fun hh => absurd hh hd, fun _ => rfl⟩

/-! ### Swap algebra -/

lemma swap_dist_one (b : Board) (r1 c1 r2 c2 : Nat)
    (hd : ((r1 : Int) - r2).natAbs + ((c1 : Int) - c2).natAbs = 1) :
    swap b r1 c1 r2 c2 =
      (setC (setC b r1 c1 (getC b r2 c2)) r2 c2 (getC b r1 c1), true) := by
  unfold swap
  rw [if_neg fun hh => hh hd]

lemma swap_cells_ne (r1 c1 r2 c2 : Nat)
    (hd : ((r1 : Int) - r2).natAbs + ((c1 : Int) - c2).natAbs = 1) :
    (r1, c1) ≠ (r2, c2) := by
  intro hh
  injection hh with ha hb
  subst ha
  subst hb
  simp at hd

/-- Swapping the same two (in-bounds) cells twice restores the board
bit-for-bit. -/
lemma swap_swap (b : Board) (hb : Wellformed b) (r1 c1 r2 c2 : Nat)
    (h1 : r1 < 8) (h2 : c1 < 8) (h3 : r2 < 8) (h4 : c2 < 8)
    (hd : ((r1 : Int) - r2).natAbs + ((c1 : Int) - c2).natAbs = 1) :
    (swap (swap b r1 c1 r2 c2).1 r1 c1 r2 c2).1 = b := by
  have hne := swap_cells_ne r1 c1 r2 c2 hd
  rw [swap_dist_one _ _ _ _ _ hd]
  dsimp only
  rw [swap_dist_one _ _ _ _ _ hd]
  dsimp only
  have hw1 : Wellformed (setC b r1 c1 (getC b r2 c2)) := setC_wellformed _ _ _ _ hb
  have hw2 : Wellformed (setC (setC b r1 c1 (getC b r2 c2)) r2 c2 (getC b r1 c1)) :=
    setC_wellformed _ _ _ _ hw1
  have hv1 : getC (setC (setC b r1 c1 (getC b r2 c2)) r2 c2 (getC b r1 c1)) r1 c1
      = getC b r2 c2 := by
    rw [getC_setC_ne _ _ _ _ _ _ hne, getC_setC_self _ _ _ _ hb h1 h2]
  have hv2 : getC (setC (setC b r1 c1 (getC b r2 c2)) r2 c2 (getC b r1 c1)) r2 c2
      = getC b r1 c1 := by
    rw [getC_setC_self _ _ _ _ hw1 h3 h4]
  apply board_ext _ _ (setC_wellformed _ _ _ _ (setC_wellformed _ _ _ _ hw2)) hb
  intro i j hi hj
  by_cases hij2 : (i, j) = (r2, c2)
  · injection hij2 with ha hb2
    subst ha
    subst hb2
    rw [getC_setC_self _ _ _ _ (setC_wellformed _ _ _ _ hw2) hi hj, hv1]
  · rw [getC_setC_ne _ _ _ _ _ _ hij2]
    by_cases hij1 : (i, j) = (r1, c1)
    · injection hij1 with ha hb2
      subst ha
      subst hb2
      rw [getC_setC_self _ _ _ _ hw2 hi hj, hv2]
    · rw [getC_setC_ne _ _ _ _ _ _ hij1, getC_setC_ne _ _ _ _ _ _ hij2,
        getC_setC_ne _ _ _ _ _ _ hij1]

/-! ### Score lemmas -/

lemma remove_matches_score_mono (g : GameState) :
    g.score ≤ (remove_matches g).1.score := by
  simp only [remove_matches]
  split
  · exact le_refl _
  · show g.score ≤ (if 5 ≤ (find_matches g.board).length then g.score + 300
      else if (find_matches g.board).length = 4 then g.score + 200
      else g.score + 100)
    split_ifs <;> omega

lemma handle_click_score_mono (g : GameState) (row col : Nat) :
    g.score ≤ (handle_click g row col).score := by
  rcases hsel : g.selected with _ | ⟨sr, sc⟩
  · simp only [handle_click, hsel]
    exact le_refl _
  · simp only [handle_click, hsel]
    split_ifs with hc1 hc2 hc3 hc4
    · exact le_refl _
    · exact le_refl _
    · have h := remove_matches_score_mono
        { g with board := (swap g.board sr sc row col).1 }
      rw [hsel] at h
      simpa using h
    · exact le_refl _
    · exact le_refl _

/-! ### Claim C3: scoring -/

lemma isEmpty_false_of_length (l : List (Nat × Nat)) (n : Nat) (hn : 0 < n)
    (h : l.length = n) : ¬(l.isEmpty = true) := by
  intro hh
  rw [List.isEmpty_iff] at hh
  rw [hh] at h
  simp at h
  omega

/-- C3: a `remove_matches` pass with a non-empty match set adds exactly
100 points when the total number of matched cells is 3, exactly 200
when it is 4, and exactly 300 when it is 5 or more, and no engine
operation (`remove_matches` itself, or any click) ever decreases the
score. -/
theorem C3_remove_matches_score (g : GameState) :
    ((find_matches g.board).length = 3 →
      (remove_matches g).1.score = g.score + 100)
    ∧ ((find_matches g.board).length = 4 →
      (remove_matches g).1.score = g.score + 200)
    ∧ (5 ≤ (find_matches g.board).length →
      (remove_matches g).1.score = g.score + 300)
    ∧ g.score ≤ (remove_matches g).1.score
    ∧ (∀ row col, g.score ≤ (handle_click g row col).score)
    ∧ ∀ s, (update_reshuffle s g).score = g.score := by
  refine ⟨?_, ?_, ?_, remove_matches_score_mono g,
    fun row col => handle_click_score_mono g row col, ?_⟩
  · intro h3
    simp only [remove_matches]
    rw [if_neg (isEmpty_false_of_length _ 3 (by omega) h3)]
    show (if 5 ≤ (find_matches g.board).length then g.score + 300
      else if (find_matches g.board).length = 4 then g.score + 200
      else g.score + 100) = g.score + 100
    rw [h3]
    norm_num
  · intro h4
    simp only [remove_matches]
    rw [if_neg (isEmpty_false_of_length _ 4 (by omega) h4)]
    show (if 5 ≤ (find_matches g.board).length then g.score + 300
      else if (find_matches g.board).length = 4 then g.score + 200
      else g.score + 100) = g.score + 200
    rw [h4]
    norm_num
  · intro h5
    simp only [remove_matches]
    rw [if_neg (isEmpty_false_of_length _ (find_matches g.board).length
      (by omega) rfl)]
    show (if 5 ≤ (find_matches g.board).length then g.score + 300
      else if (find_matches g.board).length = 4 then g.score + 200
      else g.score + 100) = g.score + 300
    rw [if_pos h5]
  · intro s
    simp only [update_reshuffle]
    split_ifs <;> rfl

/-! ### Claim C5: no-match swaps are reverted -/

/-- C5: with a selected cell, a click on an adjacent cell whose swap
produces no match reverts the swap: the board is restored bit-for-bit
and the score is unchanged. -/
theorem C5_handle_click_revert (g : GameState) (sr sc row col : Nat)
    (hb : Wellformed g.board) (hs : g.selected = some (sr, sc))
    (h1 : sr < 8) (h2 : sc < 8) (h3 : row < 8) (h4 : col < 8)
    (hadj : (sr = row ∧ ((sc : Int) - col).natAbs = 1)
          ∨ (sc = col ∧ ((sr : Int) - row).natAbs = 1))
    (hnm : find_matches (swap g.board sr sc row col).1 = []) :
    (handle_click g row col).board = g.board
    ∧ (handle_click g row col).score = g.score := by
  have hd : ((sr : Int) - row).natAbs + ((sc : Int) - col).natAbs = 1 := by
    rcases hadj with ⟨ha, hb2⟩ | ⟨ha, hb2⟩
    · rw [ha]
      simp [hb2]
    · rw [ha]
      simp [hb2]
  have hne : ¬(sr = row ∧ sc = col) := by
    rintro ⟨ha, hb2⟩
    subst ha
    subst hb2
    simp at hd
  simp only [handle_click, hs]
  rw [if_neg hne, if_pos hadj]
  have hs2 : (swap g.board sr sc row col).2 = true := by
    rw [swap_dist_one _ _ _ _ _ hd]
  rw [if_pos hs2]
  have hie : (find_matches (swap g.board sr sc row col).1).isEmpty = true := by
    rw [hnm]
    rfl
  rw [if_pos hie]
  exact ⟨swap_swap g.board hb sr sc row col h1 h2 h3 h4 hd, rfl⟩

/-! ### Claim C6: existence of legal moves -/

lemma not_isEmpty_of_ne_nil {α : Type} {l : List α} (h : l ≠ []) :
    (!l.isEmpty) = true := by
  cases l with
  | nil => exact absurd rfl h
  | cons x t => rfl

lemma ne_nil_of_not_isEmpty {α : Type} {l : List α} (h : (!l.isEmpty) = true) :
    l ≠ [] := by
  cases l with
  | nil => simp at h
  | cons x t => simp

/-- C6: `has_moves` returns `true` iff some cell swapped with its right
or bottom neighbour yields a board with a non-empty match set (the
check itself works on scratch copies, so the board is untouched —
in this embedding `has_moves` is a pure function of the board). -/
theorem C6_has_moves_spec (b : Board) :
    has_moves b = true ↔
      ∃ i j, i < 8 ∧ j < 8 ∧
        ((j < 7 ∧ find_matches (swapRight b i j) ≠ [])
          ∨ (i < 7 ∧ find_matches (swapDown b i j) ≠ [])) := by
  unfold has_moves
  rw [List.any_eq_true]
  constructor
  · rintro ⟨i, hi, h⟩
    rw [List.mem_range] at hi
    rw [List.any_eq_true] at h
    obtain ⟨j, hj, hp⟩ := h
    rw [List.mem_range] at hj
    refine ⟨i, j, hi, hj, ?_⟩
    rw [Bool.or_eq_true, Bool.and_eq_true, Bool.and_eq_true] at hp
    rcases hp with ⟨hj7, hne⟩ | ⟨hi7, hne⟩
    · left
      have hj7' := of_decide_eq_true hj7
      exact ⟨by omega, ne_nil_of_not_isEmpty hne⟩
    · right
      have hi7' := of_decide_eq_true hi7
      exact ⟨by omega, ne_nil_of_not_isEmpty hne⟩
  · rintro ⟨i, j, hi, hj, hcase⟩
    refine ⟨i, List.mem_range.mpr hi, ?_⟩
    rw [List.any_eq_true]
    refine ⟨j, List.mem_range.mpr hj, ?_⟩
    rw [Bool.or_eq_true, Bool.and_eq_true, Bool.and_eq_true]
    rcases hcase with ⟨hj7, hne⟩ | ⟨hi7, hne⟩
    · exact Or.inl ⟨decide_eq_true (by omega), not_isEmpty_of_ne_nil hne⟩
    · exact Or.inr ⟨decide_eq_true (by omega), not_isEmpty_of_ne_nil hne⟩

/-! ### Claim C10: first click records the selection -/

/-- C10: with no cell selected, `handle_click` only records the
selection; board, score, pending_removal and game_over (and everything
else) are untouched. -/
theorem C10_handle_click_select (g : GameState) (row col : Nat)
    (hs : g.selected = none) :
    handle_click g row col = { g with selected := some (row, col) } := by
  simp only [handle_click, hs]

/-- C10 witness at a concrete state. -/
theorem C10_witness :
    G9.selected = none
    ∧ handle_click G9 2 3 = { G9 with selected := some (2, 3) } :=
  ⟨rfl, C10_handle_click_select G9 2 3 rfl⟩

/-! ### Claim C9: out-of-bounds clicks -/

/-- C9 counterexample: a click at the out-of-bounds coordinates
`(8, 0)` is not a no-op — it changes the selection. -/
theorem C9_cex : (handle_click G9 8 0).selected ≠ G9.selected := by decide

/-- C9 (amended): `handle_click` performs no bounds check at all.  An
out-of-bounds click while no cell is selected records the selection
and changes nothing else; on this path the board is never indexed, so
the Rust code cannot panic here.  (In the running program such
coordinates never reach `handle_click`: the UI loop dispatches clicks
only for the 8×8 on-board tiles.) -/
theorem C9_oob_click_selects (g : GameState) (row col : Nat)
    (hoob : 8 ≤ row ∨ 8 ≤ col) (hs : g.selected = none) :
    handle_click g row col = { g with selected := some (row, col) } := by
  simp only [handle_click, hs]

/-- C9 witness at a concrete out-of-bounds click. -/
theorem C9_witness :
    (8 ≤ 8 ∨ 8 ≤ 5) ∧ G9.selected = none
    ∧ handle_click G9 8 5 = { G9 with selected := some (8, 5) } :=
  ⟨Or.inl (le_refl 8), rfl, C9_oob_click_selects G9 8 5 (Or.inl (le_refl 8)) rfl⟩

/-! ### Claim C7: clicks after game over -/

/-- C7 counterexample: `handle_click` itself never consults
`game_over`: in the game-over state `G7`, a click on `(0, 1)` adjacent
to the selected `(0, 0)` still swaps, matches and changes the score. -/
theorem C7_cex : G7.game_over = true ∧ (handle_click G7 0 1).score ≠ G7.score :=
  ⟨rfl, by decide⟩

/-- C7 (amended): the game-over guard lives in the UI dispatch, not in
`handle_click`: once `game_over` is set the rendering loop returns
before any click handling, so a click is a no-op on the whole state
until restart. -/
theorem C7_ui_click_game_over (g : GameState) (row col : Nat)
    (hgo : g.game_over = true) : ui_click g row col = g := by
  simp [ui_click, hgo]

/-- C7 witness at a concrete game-over state. -/
theorem C7_witness : G7A.game_over = true ∧ ui_click G7A 0 1 = G7A :=
  ⟨rfl, C7_ui_click_game_over G7A 0 1 rfl⟩

/-! ### Claim C8: the reshuffle block of `update` -/

lemma reshuffleAux_none (k : Nat) (hk : 1 ≤ k) :
    ∀ (s : Nat → Nat) (b : Board),
      (∀ t, t < k → has_moves (fillAt s t) = false) →
      reshuffleAux s b k = (fillAt s (k - 1), false) := by
  induction k with
  | zero => exact absurd hk (by omega)
  | succ k ih =>
    intro s b hall
    have h0 : has_moves (fill_board s) = false := hall 0 (by omega)
    rw [reshuffleAux, h0, if_neg Bool.false_ne_true]
    cases k with
    | zero => rfl
    | succ k2 =>
      have hres := ih (by omega) (shift64 s) (fill_board s)
        (fun t ht => hall (t + 1) (by omega))
      rw [hres]
      rfl

lemma reshuffleAux_found (k : Nat) :
    ∀ (t : Nat) (s : Nat → Nat) (b : Board), t < k →
      has_moves (fillAt s t) = true →
      (∀ u, u < t → has_moves (fillAt s u) = false) →
      reshuffleAux s b k = (fillAt s t, true) := by
  induction k with
  | zero => intro t s b ht; exact absurd ht (by omega)
  | succ k ih =>
    intro t s b ht hmv hmin
    cases t with
    | zero =>
      have hmv2 : has_moves (fill_board s) = true := hmv
      rw [reshuffleAux, if_pos hmv2]
      rfl
    | succ t2 =>
      have h0 : has_moves (fill_board s) = false := hmin 0 (by omega)
      rw [reshuffleAux, h0, if_neg Bool.false_ne_true]
      exact ih t2 (shift64 s) (fill_board s) (by omega) hmv
        (fun u hu => hmin (u + 1) (by omega))

/-- C8 (amended): when nothing is pending for display and no legal
move exists (and the game is not over), `update` regenerates the whole
grid at random up to 5 times, stopping at the first regeneration that
has a legal move — without rejecting regenerations that contain
matches; if none of the 5 regenerations has a legal move, the last one
is kept and `game_over` is set. -/
theorem C8_update_reshuffle_spec (s : Nat → Nat) (g : GameState)
    (hp : g.pending_removal = []) (hm : has_moves g.board = false)
    (hgo : g.game_over = false) :
    ((∀ t, t < 5 → has_moves (fillAt s t) = false) →
      update_reshuffle s g = { g with board := fillAt s 4, game_over := true })
    ∧ (∀ t, t < 5 → has_moves (fillAt s t) = true →
        (∀ u, u < t → has_moves (fillAt s u) = false) →
        update_reshuffle s g = { g with board := fillAt s t }) := by
  have hcond : (g.pending_removal.isEmpty && !has_moves g.board) = true := by
    rw [hp, hm]
    rfl
  have hngo : (!g.game_over) = true := by rw [hgo]; rfl
  constructor
  · intro hall
    simp only [update_reshuffle]
    rw [hcond, if_pos rfl, hngo, if_pos rfl,
      reshuffleAux_none 5 (by omega) s g.board hall]
    rfl
  · intro t ht hmv hmin
    simp only [update_reshuffle]
    rw [hcond, if_pos rfl, hngo, if_pos rfl,
      reshuffleAux_found 5 t s g.board ht hmv hmin]
    rfl

set_option maxHeartbeats 8000000 in
/-- The striped board admits no legal move (checked exhaustively). -/
lemma stripe_no_moves : has_moves stripeBoard = false := by decide

/-- C8 counterexample: from the deadlocked state `G8`, with the random
stream that regenerates the all-ones board, the reshuffle accepts the
very first regeneration even though that board is full of matches: no
match-rejection (as in initialization) happens in `update`. -/
theorem C8_cex :
    has_moves G8.board = false
    ∧ find_matches onesBoard ≠ []
    ∧ update_reshuffle s0 G8 = { G8 with board := onesBoard } := by
  refine ⟨stripe_no_moves, by decide, ?_⟩
  have hcond : (G8.pending_removal.isEmpty && !has_moves G8.board) = true := by
    rw [show has_moves G8.board = false from stripe_no_moves]
    rfl
  have hfirst : has_moves (fill_board s0) = true := by decide
  simp only [update_reshuffle]
  rw [hcond, if_pos rfl, if_pos (by rfl : (!G8.game_over) = true),
    show (5 : Nat) = 4 + 1 from rfl, reshuffleAux, if_pos hfirst]
  rw [show fill_board s0 = onesBoard from by decide]
  rfl

/-- C8 witness: the reshuffle stops at the first regeneration with a
legal move. -/
theorem C8_witness :
    G8.pending_removal = [] ∧ has_moves G8.board = false
    ∧ G8.game_over = false
    ∧ has_moves (fillAt s0 0) = true
    ∧ update_reshuffle s0 G8 = { G8 with board := fillAt s0 0 } := by
  refine ⟨rfl, stripe_no_moves, rfl, by decide, ?_⟩
  exact (C8_update_reshuffle_spec s0 G8 rfl stripe_no_moves rfl).2 0 (by omega)
    (by decide) (fun u hu => absurd hu (by omega))

/-! ### Witnesses for the remaining claims -/

/-- C1 witness: the characterization evaluated at the triple board. -/
theorem C1_witness :
    ((0, 1) ∈ find_matches tripleBoard ↔
      0 < 8 ∧ 1 < 8 ∧ (HRun tripleBoard 0 1 ∨ VRun tripleBoard 0 1)) :=
  (C1_find_matches_spec tripleBoard).1 0 1

/-- C2 witness: gravity on column 0 of the concrete board `dBoard`. -/
theorem C2_witness :
    Wellformed dBoard
    ∧ (drop_tiles dBoard).getD 0 [] =
        List.replicate (8 - ((dBoard.getD 0 []).filter (fun v => v != 0)).length) 0
          ++ (dBoard.getD 0 []).filter (fun v => v != 0) :=
  ⟨by decide, C2_drop_tiles_gravity dBoard (by decide) 0 (by omega)⟩

/-- C3 witness: a pass with exactly 3 matched cells adds 100. -/
theorem C3_witness :
    (find_matches G3.board).length = 3
    ∧ (remove_matches G3).1.score = G3.score + 100 :=
  ⟨by decide, (C3_remove_matches_score G3).1 (by decide)⟩

/-- C4 witness: a concrete adjacent swap is accepted. -/
theorem C4_witness :
    Wellformed stripeBoard ∧ (swap stripeBoard 0 0 0 1).2 = true :=
  ⟨by decide,
    (C4_swap_spec stripeBoard (by decide) 0 0 0 1 (by omega) (by omega)
      (by omega) (by omega)).1.mpr (by decide)⟩

/-- C5 witness: a concrete no-match swap on the striped board is
reverted bit-for-bit. -/
theorem C5_witness :
    Wellformed G5.board ∧ G5.selected = some (0, 0)
    ∧ find_matches (swap G5.board 0 0 0 1).1 = []
    ∧ (handle_click G5 0 1).board = G5.board
    ∧ (handle_click G5 0 1).score = G5.score := by
  refine ⟨by decide, rfl, by decide, ?_⟩
  exact C5_handle_click_revert G5 0 0 0 1 (by decide) rfl (by omega) (by omega)
    (by omega) (by omega) (Or.inl ⟨rfl, by decide⟩) (by decide)

/-- C6 witness: the all-ones board has a legal move. -/
theorem C6_witness : has_moves onesBoard = true :=
  (C6_has_moves_spec onesBoard).2
    ⟨0, 0, by omega, by omega, Or.inl ⟨by omega, by decide⟩⟩

end Sanxiao
